import Mathlib

/-!
# A shallow embedding of `src/Deque.hpp` (the `own_deque` container)

The C++ source is a chunked double-ended queue: a `std::vector` of
individually allocated fixed-size blocks (`initial_size = 64` slots each),
with front/back cursors `(first_storage, current_first)` /
`(last_storage, current_last)`, a size counter `external_storage_size`,
a `pivot` used by `resize`, and a random-access iterator.

Modelling conventions:
* machine integers (`std::size_t`, `int`) are `Nat`/`Int`; every arithmetic
  step stays inside ranges where the C++ conversions are exact, except the
  dead `current_first >= initial_size` branch of `operator[]`, where the
  `size_t` wrap-around is modelled explicitly via `% 2 ^ 64`;
* a block of raw storage is a slot-indexed map `Nat → Option α`; a slot is
  `none` until the first assignment into it (uninitialized memory);
* the block table `external_storage` is a `List` of blocks; an out-of-range
  vector write (undefined behaviour in C++) is modelled as a dropped write
  (`List.set` out of range is the identity) and an out-of-range read as
  `none`;
* `assert` is modelled as an `Option`-failure (`none` = assertion trips).
-/

/-- `initial_size` from the source: the fixed block capacity, 64. -/
def initial_size : Nat := 64

/-- A block: one individually allocated chunk of `initial_size` raw slots.
Slot `j` holds `none` until the first assignment into it. -/
def Block (α : Type) := Nat → Option α

/-- A freshly allocated block (`make_storage`): all slots uninitialized. -/
def emptyBlock {α : Type} : Block α := fun _ => none

/-- Assignment `b[j] = v` into one slot of a block. -/
def setSlot {α : Type} (b : Block α) (j : Nat) (v : α) : Block α :=
  fun k => if k = j then some v else b k

/-- Assignment `external_storage[bi][slot] = v`.  When `bi` is out of range
(the C++ indexes past the vector, undefined behaviour) the write is dropped. -/
def writeBlock {α : Type} (st : List (Block α)) (bi slot : Nat) (v : α) :
    List (Block α) :=
  st.set bi (setSlot ((st[bi]?).getD emptyBlock) slot v)

/-- Read the slot at global position `g`, i.e. slot `g % 64` of the block at
table index `g / 64`.  This is the addressing scheme that `operator[]`
computes; `none` means out of range or never written. -/
def readGlobal {α : Type} (st : List (Block α)) (g : Nat) : Option α :=
  match st[g / initial_size]? with
  | some b => b (g % initial_size)
  | none => none

/-- The state of a `Deque<T>`: the scalar bookkeeping fields and the block
table, with the source's member names. -/
structure Deque (α : Type) where
  pivot : Nat
  current_first : Nat
  current_last : Nat
  first_storage : Nat
  last_storage : Nat
  external_storage_size : Nat
  external_capacity : Nat
  external_storage : List (Block α)

namespace Deque

variable {α : Type}

/-- `Deque()`: the default constructor resizes the table to
`EXTERNAL_INIT_SIZE = 2` and allocates two blocks.  The scalar fields carry
their in-class initializers: `current_first = (64-1)/2 - 1 = 30`,
`current_last = (64-1)/2 = 31`, the storages and pivot `0`, size `0`. -/
def init (α : Type) : Deque α :=
  { pivot := 0
    current_first := (initial_size - 1) / 2 - 1
    current_last := (initial_size - 1) / 2
    first_storage := 0
    last_storage := 0
    external_storage_size := 0
    external_capacity := initial_size * 2
    external_storage := [emptyBlock, emptyBlock] }

/-- `empty()`. -/
def empty (s : Deque α) : Bool := s.external_storage_size == 0

/-- `get_size()`. -/
def get_size (s : Deque α) : Nat := s.external_storage_size

/-- `resize()`: double the table, recenter the pivot at `new_size / 2 - 1`,
relink the blocks `first_storage .. last_storage` at their old
pivot-relative offsets from the new pivot, free the others, and allocate
fresh blocks for every remaining (`nullptr`) table entry.
`upper_offset` / `lower_offset` are the `int` casts of the source and may
be negative, so they live in `Int`. -/
def resize (s : Deque α) : Deque α :=
  let new_size := s.external_storage.length * 2
  let new_pivot := new_size / 2 - 1
  let upper_offset : Int := (s.first_storage : Int) - (s.pivot : Int)
  let lower_offset : Int := (s.last_storage : Int) - (s.pivot : Int)
  let new_first := ((new_pivot : Int) + upper_offset).toNat
  let new_last := ((new_pivot : Int) + lower_offset).toNat
  let new_external_storage : List (Block α) :=
    (List.range new_size).map (fun j =>
      if new_first ≤ j ∧ j ≤ new_last then
        (s.external_storage[s.first_storage + (j - new_first)]?).getD emptyBlock
      else emptyBlock)
  { s with
    pivot := new_pivot
    first_storage := new_first
    last_storage := new_last
    external_storage := new_external_storage
    external_capacity := new_external_storage.length * initial_size }

/-- `push_back(source)`: write at `(last_storage, current_last)`, bump the
size, then advance the back cursor, wrapping to the next block and calling
`resize` first when the next block index would leave the table.  (The source
zeroes `current_last` before the resize test; `resize` does not read
`current_last`, so setting it afterwards is equivalent.) -/
def push_back (v : α) (s : Deque α) : Deque α :=
  let s1 := { s with
    external_storage :=
      writeBlock s.external_storage s.last_storage s.current_last v
    external_storage_size := s.external_storage_size + 1 }
  if s.current_last + 1 ≥ initial_size then
    let s2 := if s1.last_storage + 1 ≥ s1.external_storage.length
      then s1.resize else s1
    { s2 with current_last := 0, last_storage := s2.last_storage + 1 }
  else
    { s1 with current_last := s.current_last + 1 }

/-- `push_front(source)`: write at `(first_storage, current_first)`, bump the
size, then retreat the front cursor, wrapping to slot `initial_size - 1` of
the previous block and calling `resize` first when `first_storage` is
already `0`. -/
def push_front (v : α) (s : Deque α) : Deque α :=
  let s1 := { s with
    external_storage :=
      writeBlock s.external_storage s.first_storage s.current_first v
    external_storage_size := s.external_storage_size + 1 }
  if s.current_first = 0 then
    let s2 := if s1.first_storage = 0 then s1.resize else s1
    { s2 with current_first := initial_size - 1,
              first_storage := s2.first_storage - 1 }
  else
    { s1 with current_first := s.current_first - 1 }

/-- `pop_back()`: when non-empty, retreat the back cursor (wrapping to slot
`initial_size - 1` of the previous block when `current_last` is `0`) and
decrement the size; the vacated slot is left as-is. -/
def pop_back (s : Deque α) : Deque α :=
  if ¬ s.external_storage_size = 0 then
    let s1 := if s.current_last = 0 then
        { s with current_last := initial_size - 1,
                 last_storage := s.last_storage - 1 }
      else { s with current_last := s.current_last - 1 }
    { s1 with external_storage_size := s.external_storage_size - 1 }
  else s

/-- `pop_front()`: when non-empty, advance the front cursor (wrapping to
slot `0` of the next block when `current_first + 1` reaches
`initial_size`) and decrement the size; the vacated slot is left as-is. -/
def pop_front (s : Deque α) : Deque α :=
  if ¬ s.external_storage_size = 0 then
    let s1 := if s.current_first + 1 ≥ initial_size then
        { s with current_first := 0, first_storage := s.first_storage + 1 }
      else { s with current_first := s.current_first + 1 }
    { s1 with external_storage_size := s.external_storage_size - 1 }
  else s

/-- `operator[](index)`: increment the index, branch on
`current_first >= initial_size` (in that branch the source's `size_t`
subtractions wrap, modelled by `% 2 ^ 64`), otherwise add `current_first`;
then split into a block offset (`index / initial_size`) and a slot
(`index % initial_size`) and read
`external_storage[first_storage + offset][index]`. -/
def opBracket (s : Deque α) (index0 : Nat) : Option α :=
  let index1 := index0 + 1
  let p : Nat × Nat :=
    if s.current_first ≥ initial_size then
      (1, (index1 + 2 ^ 64 - (initial_size + 2 ^ 64 - s.current_first) % 2 ^ 64)
            % 2 ^ 64)
    else
      (0, index1 + s.current_first)
  let offset := p.1 + p.2 / initial_size
  let index := p.2 % initial_size
  match s.external_storage[s.first_storage + offset]? with
  | some b => b index
  | none => none

/-- `at(index)`: `assert(index <= external_storage_size)` — note the
source's `<=`, not `<` — then `operator[]`.  The outer `Option` is the
assertion: `none` means the assertion trips. -/
def atChecked (s : Deque α) (index : Nat) : Option (Option α) :=
  if index ≤ s.external_storage_size then some (s.opBracket index) else none

/-- `front()`: `assert(!empty())` then `operator[](0)`. -/
def front (s : Deque α) : Option α :=
  if s.empty then none else s.opBracket 0

/-- `back()`: `assert(!empty())` then `operator[](size - 1)`. -/
def back (s : Deque α) : Option α :=
  if s.empty then none else s.opBracket (s.external_storage_size - 1)

/-- `Deque(pointer source, std::size_t size)`: the buffer constructor
`push_back`s each element of the source — but it does not delegate to the
default constructor, so `external_storage` starts as a default-constructed
empty vector and no block is ever allocated; only the in-class member
initializers run. -/
def fromBuffer (l : List α) : Deque α :=
  l.foldl (fun s v => s.push_back v)
    { pivot := 0
      current_first := (initial_size - 1) / 2 - 1
      current_last := (initial_size - 1) / 2
      first_storage := 0
      last_storage := 0
      external_storage_size := 0
      external_capacity := initial_size
      external_storage := [] }

end Deque

/-- `Deque_iterator`: a block-delta `offset`, a within-block `index`, a copy
of the block table and the pivot (`int` members, so `Int`). -/
structure Deque_iterator (α : Type) where
  offset : Int
  index : Int
  storage : List (Block α)
  pivot : Int

namespace Deque_iterator

variable {α : Type}

/-- The private constructor
`Deque_iterator(current_position, current_storage, _storage, _pivot)`: it
initializes `offset = index = 0`, stores `_storage` and `_pivot`, adjusts
the *local* `current_position` and the member `offset` when
`current_position` leaves `[0, initial_size)`, but never writes the
adjusted position into `index` and never reads `current_storage`.
(In the source the first comparison converts `current_position` to
`size_t`, so a negative argument would also take the first branch; `begin`
and `end` only ever pass nonnegative positions, where both readings
agree.) -/
def mkIterator (current_position : Int) (current_storage : Int)
    (st : List (Block α)) (p : Int) : Deque_iterator α :=
  if current_position ≥ (initial_size : Int) then
    { offset := 1, index := 0, storage := st, pivot := p }
  else if current_position < 0 then
    { offset := -1, index := 0, storage := st, pivot := p }
  else
    { offset := 0, index := 0, storage := st, pivot := p }

/-- `get_value()`: the source returns `storage[0][17]`, a fixed slot. -/
def get_value (it : Deque_iterator α) : Option α :=
  match it.storage[0]? with
  | some b => b 17
  | none => none

/-- Modelled from the spec: the intended dereference, resolving to the
element at table position `pivot + offset`, slot `index`, of the referenced
block table (`src/Deque.hpp` has no such computation; `get_value` is the
hardcoded slot above). -/
def derefSpec (it : Deque_iterator α) : Option α :=
  match it.storage[(it.pivot + it.offset).toNat]? with
  | some b => b it.index.toNat
  | none => none

/-- `operator+=(linear_offset)`: add to `index`; when the result reaches
`initial_size`, add `index / initial_size` to `offset` and then add
`index % initial_size` to `index` (the source's `+=`, not an assignment).
All divisions taken here are of nonnegative values, where Lean's `Int`
division agrees with the C++ (unsigned) one. -/
def addAssign (it : Deque_iterator α) (linear_offset : Int) :
    Deque_iterator α :=
  let index := it.index + linear_offset
  if index ≥ (initial_size : Int) then
    { it with
      offset := it.offset + index / (initial_size : Int)
      index := index + index % (initial_size : Int) }
  else
    { it with index := index }

/-- `operator-=(linear_offset)`: subtract from `index`; when the result is
negative, subtract `abs(index) / initial_size + 1` from `offset` and add
`(abs(index) / initial_size + 1) * initial_size` to `index`. -/
def subAssign (it : Deque_iterator α) (linear_offset : Int) :
    Deque_iterator α :=
  let index := it.index - linear_offset
  if index < 0 then
    { it with
      offset := it.offset - ((index.natAbs : Int) / (initial_size : Int) + 1)
      index := index + ((index.natAbs : Int) / (initial_size : Int) + 1)
                 * (initial_size : Int) }
  else
    { it with index := index }

/-- `operator!=(first, other)`: the source returns
`(first.offset != other.offset) && (first.index != other.index)` —
a logical AND of the two component comparisons. -/
def iterNeq (first other : Deque_iterator α) : Bool :=
  (first.offset != other.offset) && (first.index != other.index)

end Deque_iterator

namespace Deque

variable {α : Type}

/-- `begin()`: construct an iterator from `current_first + 1`,
`first_storage`, the block table and the pivot. -/
def begin (s : Deque α) : Deque_iterator α :=
  Deque_iterator.mkIterator ((s.current_first : Int) + 1)
    (s.first_storage : Int) s.external_storage (s.pivot : Int)

/-- `end()` (a Lean keyword, hence `endIt`): construct an iterator from
`current_last`, `last_storage`, the block table and the pivot. -/
def endIt (s : Deque α) : Deque_iterator α :=
  Deque_iterator.mkIterator (s.current_last : Int)
    (s.last_storage : Int) s.external_storage (s.pivot : Int)

end Deque

/-- One mutating operation on a deque. -/
inductive DOp (α : Type) where
  | pushF (v : α)
  | pushB (v : α)
  | popF
  | popB

/-- Apply one operation to a deque state. -/
def applyDOp {α : Type} (s : Deque α) : DOp α → Deque α
  | .pushF v => s.push_front v
  | .pushB v => s.push_back v
  | .popF => s.pop_front
  | .popB => s.pop_back

/-- Run a sequence of operations from the default-constructed deque; the
results are exactly the reachable states. -/
def runOps {α : Type} (ops : List (DOp α)) : Deque α :=
  ops.foldl applyDOp (Deque.init α)

/-- The abstract effect of one operation on the logical sequence of
elements: `push_back` appends, `push_front` prepends, the pops drop at the
matching end (doing nothing when the sequence is empty). -/
def modelOp {α : Type} (l : List α) : DOp α → List α
  | .pushF v => v :: l
  | .pushB v => l ++ [v]
  | .popF => l.tail
  | .popB => l.dropLast

/-- The logical element sequence after a run of operations. -/
def modelRun {α : Type} (ops : List (DOp α)) : List α :=
  ops.foldl modelOp []

/-- `push_back` each element of a list in order. -/
def pushList {α : Type} (l : List α) (s : Deque α) : Deque α :=
  l.foldl (fun s v => s.push_back v) s

/-- Read `back()` then `pop_back()`, `n` times, collecting the reads. -/
def popsBack {α : Type} : Nat → Deque α → List (Option α)
  | 0, _ => []
  | n + 1, s => s.back :: popsBack n s.pop_back

/-- The concrete scenario of the spec: push_back the integers 1..100 in
order, then pop_front 50 times. -/
def ops100 : List (DOp Nat) :=
  ((List.range 100).map (fun k => DOp.pushB (k + 1))) ++
    List.replicate 50 DOp.popF

/-!
## The representation invariant

A reachable deque state lays its logical elements out contiguously in
global slot positions (table index × 64 + slot).  `frontPos` is the global
position of the front cursor (one *before* the first element), `backPos`
the global position of the back cursor (one *past* the last element).
-/

/-- Global position of the front cursor: one slot before the first
element. -/
def frontPos {α : Type} (s : Deque α) : Nat :=
  s.first_storage * initial_size + s.current_first

/-- Global position of the back cursor: one slot past the last element. -/
def backPos {α : Type} (s : Deque α) : Nat :=
  s.last_storage * initial_size + s.current_last

/-- The structural invariant every reachable state satisfies. -/
structure DequeInv {α : Type} (s : Deque α) : Prop where
  cf_lt : s.current_first < initial_size
  cl_lt : s.current_last < initial_size
  fs_lt : s.first_storage < s.external_storage.length
  ls_lt : s.last_storage < s.external_storage.length
  pos_eq : backPos s = frontPos s + 1 + s.external_storage_size
  pivot_eq : s.pivot + 1 = s.external_storage.length / 2
  len_even : s.external_storage.length % 2 = 0

/-- The deque state `s` represents the logical element sequence `l`:
the invariant holds, the size counter is the length of `l`, and the slot at
global position `frontPos s + 1 + i` holds exactly `l[i]` for every valid
`i`. -/
def represents {α : Type} (s : Deque α) (l : List α) : Prop :=
  DequeInv s ∧ s.external_storage_size = l.length ∧
    ∀ i, i < l.length →
      readGlobal s.external_storage (frontPos s + 1 + i) = l[i]?

theorem length_writeBlock {α : Type} (st : List (Block α)) (bi slot : Nat)
    (v : α) : (writeBlock st bi slot v).length = st.length :=
  List.length_set st bi _

theorem readGlobal_writeBlock_self {α : Type} (st : List (Block α))
    (bi slot : Nat) (v : α) (hbi : bi < st.length) (hs : slot < initial_size) :
    readGlobal (writeBlock st bi slot v) (bi * initial_size + slot) = some v := by
  have h64 : initial_size = 64 := rfl
  have hdiv : (bi * initial_size + slot) / initial_size = bi := by
    rw [h64] at hs ⊢; omega
  have hmod : (bi * initial_size + slot) % initial_size = slot := by
    rw [h64] at hs ⊢; omega
  rw [readGlobal, hdiv, hmod, writeBlock, List.getElem?_set, if_pos rfl,
    if_pos hbi]
  simp [setSlot]

theorem readGlobal_writeBlock_ne {α : Type} (st : List (Block α))
    (bi slot g : Nat) (v : α) (hg : g ≠ bi * initial_size + slot) :
    readGlobal (writeBlock st bi slot v) g = readGlobal st g := by
  have h64 : initial_size = 64 := rfl
  rw [readGlobal, readGlobal, writeBlock, List.getElem?_set]
  by_cases hb : bi = g / initial_size
  · rw [if_pos hb]
    have hslot : g % initial_size ≠ slot := by
      intro hcon
      apply hg
      rw [h64] at hcon hb ⊢; omega
    by_cases hlen : bi < st.length
    · rw [if_pos hlen]
      obtain ⟨b, hb2⟩ : ∃ b, st[g / initial_size]? = some b :=
        ⟨_, List.getElem?_eq_getElem (hb ▸ hlen)⟩
      rw [hb2]
      have : (st[bi]?).getD emptyBlock = b := by rw [hb, hb2]; rfl
      rw [this]
      simp [setSlot, hslot]
    · rw [if_neg hlen]
      have : st[g / initial_size]? = none := by
        rw [List.getElem?_eq_none]
        omega
      rw [this]
  · rw [if_neg hb]

/-!
## What `resize` does to an invariant-satisfying state

Under the invariant, the pivot bookkeeping in `resize` amounts to shifting
every in-range block up by `length / 2` table positions inside a table of
twice the length.
-/

theorem resize_first_storage {α : Type} (s : Deque α)
    (hp : s.pivot + 1 = s.external_storage.length / 2)
    (he : s.external_storage.length % 2 = 0) :
    s.resize.first_storage =
      s.first_storage + s.external_storage.length / 2 := by
  simp only [Deque.resize]
  omega

theorem resize_last_storage {α : Type} (s : Deque α)
    (hp : s.pivot + 1 = s.external_storage.length / 2)
    (he : s.external_storage.length % 2 = 0) :
    s.resize.last_storage =
      s.last_storage + s.external_storage.length / 2 := by
  simp only [Deque.resize]
  omega

theorem resize_length {α : Type} (s : Deque α) :
    s.resize.external_storage.length = s.external_storage.length * 2 := by
  simp only [Deque.resize, List.length_map, List.length_range]

theorem resize_pivot {α : Type} (s : Deque α) :
    s.resize.pivot = s.external_storage.length * 2 / 2 - 1 := rfl

theorem resize_current_first {α : Type} (s : Deque α) :
    s.resize.current_first = s.current_first := rfl

theorem resize_current_last {α : Type} (s : Deque α) :
    s.resize.current_last = s.current_last := rfl

theorem resize_size {α : Type} (s : Deque α) :
    s.resize.external_storage_size = s.external_storage_size := rfl

theorem resize_readGlobal {α : Type} (s : Deque α)
    (hp : s.pivot + 1 = s.external_storage.length / 2)
    (he : s.external_storage.length % 2 = 0)
    (hls : s.last_storage < s.external_storage.length) (g : Nat)
    (hg1 : s.first_storage * initial_size ≤ g)
    (hg2 : g < (s.last_storage + 1) * initial_size) :
    readGlobal s.resize.external_storage
        (g + s.external_storage.length / 2 * initial_size) =
      readGlobal s.external_storage g := by
  have h64 : initial_size = 64 := rfl
  rw [h64] at hg1 hg2
  have hfs_le : s.first_storage ≤ g / 64 := by omega
  have hls_ge : g / 64 ≤ s.last_storage := by omega
  have hdiv : (g + s.external_storage.length / 2 * initial_size) / initial_size
      = g / 64 + s.external_storage.length / 2 := by rw [h64]; omega
  have hmod : (g + s.external_storage.length / 2 * initial_size) % initial_size
      = g % 64 := by rw [h64]; omega
  rw [readGlobal, readGlobal, hdiv, hmod, h64]
  simp only [Deque.resize]
  have hnf : ((((s.external_storage.length * 2) / 2 - 1 : Nat) : Int) +
      ((s.first_storage : Int) - (s.pivot : Int))).toNat =
      s.first_storage + s.external_storage.length / 2 := by omega
  have hnl : ((((s.external_storage.length * 2) / 2 - 1 : Nat) : Int) +
      ((s.last_storage : Int) - (s.pivot : Int))).toNat =
      s.last_storage + s.external_storage.length / 2 := by omega
  rw [hnf, hnl]
  have hj : g / 64 + s.external_storage.length / 2 <
      s.external_storage.length * 2 := by omega
  rw [List.getElem?_map, List.getElem?_range hj, Option.map_some']
  have hcond : s.first_storage + s.external_storage.length / 2 ≤
      g / 64 + s.external_storage.length / 2 ∧
      g / 64 + s.external_storage.length / 2 ≤
      s.last_storage + s.external_storage.length / 2 := by omega
  rw [if_pos hcond]
  have hidx : s.first_storage + (g / 64 + s.external_storage.length / 2 -
      (s.first_storage + s.external_storage.length / 2)) = g / 64 := by omega
  rw [hidx]
  obtain ⟨b, hb⟩ : ∃ b, s.external_storage[g / 64]? = some b :=
    ⟨_, List.getElem?_eq_getElem (by omega)⟩
  rw [hb]
  rfl

/-!
## `operator[]` reads the global position `frontPos + 1 + i`
-/

theorem opBracket_eq_readGlobal {α : Type} (s : Deque α)
    (hcf : s.current_first < initial_size) (i : Nat) :
    s.opBracket i = readGlobal s.external_storage (frontPos s + 1 + i) := by
  have h64 : initial_size = 64 := rfl
  rw [Deque.opBracket, readGlobal]
  rw [if_neg (by omega : ¬ s.current_first ≥ initial_size)]
  have hdiv : s.first_storage + (0 + (i + 1 + s.current_first) / initial_size)
      = (frontPos s + 1 + i) / initial_size := by
    rw [h64, frontPos, h64]; omega
  have hmod : (i + 1 + s.current_first) % initial_size
      = (frontPos s + 1 + i) % initial_size := by
    rw [h64, frontPos, h64]; omega
  rw [hdiv, hmod]

theorem represents_opBracket {α : Type} {s : Deque α} {l : List α}
    (h : represents s l) (i : Nat) (hi : i < l.length) :
    s.opBracket i = l[i]? := by
  rw [opBracket_eq_readGlobal s h.1.cf_lt i]
  exact h.2.2 i hi

/-!
## The default-constructed deque represents the empty sequence
-/

theorem represents_init (α : Type) : represents (Deque.init α) [] := by
  refine ⟨⟨?_, ?_, ?_, ?_, ?_, ?_, ?_⟩, rfl, ?_⟩
  · show (initial_size - 1) / 2 - 1 < initial_size; decide
  · show (initial_size - 1) / 2 < initial_size; decide
  · show (0 : Nat) < 2; decide
  · show (0 : Nat) < 2; decide
  · show 0 * initial_size + (initial_size - 1) / 2 =
      0 * initial_size + ((initial_size - 1) / 2 - 1) + 1 + 0
    decide
  · show (0 : Nat) + 1 = 2 / 2; decide
  · show (2 : Nat) % 2 = 0; decide
  · intro i hi
    simp at hi

/-!
## The push/pop operations track the abstract sequence
-/

theorem represents_push_back {α : Type} {s : Deque α} {l : List α} (v : α)
    (h : represents s l) : represents (s.push_back v) (l ++ [v]) := by
  obtain ⟨inv, hsz, hread⟩ := h
  have h64 : initial_size = 64 := rfl
  have hcf := inv.cf_lt
  have hcl := inv.cl_lt
  have hfs := inv.fs_lt
  have hls := inv.ls_lt
  have hpos := inv.pos_eq
  have hpe := inv.pivot_eq
  have hle := inv.len_even
  rw [backPos, frontPos, h64] at hpos
  rw [h64] at hcf hcl
  have hlen2 : 2 ≤ s.external_storage.length := by omega
  have hself : readGlobal
      (writeBlock s.external_storage s.last_storage s.current_last v)
      (s.last_storage * 64 + s.current_last) = some v := by
    have := readGlobal_writeBlock_self s.external_storage s.last_storage
      s.current_last v hls (by rw [h64]; omega)
    rw [h64] at this
    exact this
  have hne : ∀ g, g ≠ s.last_storage * 64 + s.current_last →
      readGlobal (writeBlock s.external_storage s.last_storage s.current_last v)
        g = readGlobal s.external_storage g := by
    intro g hg
    exact readGlobal_writeBlock_ne s.external_storage s.last_storage
      s.current_last g v (by rw [h64]; omega)
  have hreads1 : ∀ i, i < l.length + 1 →
      readGlobal (writeBlock s.external_storage s.last_storage s.current_last v)
        (s.first_storage * 64 + s.current_first + 1 + i) = (l ++ [v])[i]? := by
    intro i hi
    rcases Nat.lt_or_ge i l.length with hi2 | hi2
    · rw [List.getElem?_append_left hi2,
        hne (s.first_storage * 64 + s.current_first + 1 + i) (by omega)]
      have := hread i hi2
      rw [frontPos, h64] at this
      exact this
    · have hieq : i = l.length := by omega
      subst hieq
      rw [List.getElem?_concat_length]
      have hg : s.first_storage * 64 + s.current_first + 1 + l.length =
          s.last_storage * 64 + s.current_last := by omega
      rw [hg]
      exact hself
  simp only [Deque.push_back, length_writeBlock]
  by_cases hwrap : s.current_last + 1 ≥ initial_size
  · rw [if_pos hwrap]
    rw [h64] at hwrap
    by_cases hres : s.last_storage + 1 ≥ s.external_storage.length
    · rw [if_pos (by simpa [length_writeBlock] using hres)]
      set s1 : Deque α := { s with
        external_storage :=
          writeBlock s.external_storage s.last_storage s.current_last v
        external_storage_size := s.external_storage_size + 1 } with hs1
      have e_len : s1.external_storage.length = s.external_storage.length :=
        length_writeBlock _ _ _ _
      have efs : s1.first_storage = s.first_storage := rfl
      have els : s1.last_storage = s.last_storage := rfl
      have ecf : s1.current_first = s.current_first := rfl
      have esz : s1.external_storage_size = s.external_storage_size + 1 := rfl
      have hpe1 : s1.pivot + 1 = s1.external_storage.length / 2 := by
        rw [e_len]; exact hpe
      have he1 : s1.external_storage.length % 2 = 0 := by
        rw [e_len]; exact hle
      have hls1 : s1.last_storage < s1.external_storage.length := by
        rw [e_len, els]; exact hls
      have hrf := resize_first_storage s1 hpe1 he1
      have hrl := resize_last_storage s1 hpe1 he1
      have hread2 := resize_readGlobal s1 hpe1 he1 hls1
      refine ⟨⟨?_, ?_, ?_, ?_, ?_, ?_, ?_⟩, ?_, ?_⟩
      · show s1.resize.current_first < initial_size
        rw [resize_current_first, ecf]
        exact inv.cf_lt
      · show (0 : Nat) < initial_size
        decide
      · show s1.resize.first_storage < s1.resize.external_storage.length
        rw [hrf, resize_length, e_len, efs]
        omega
      · show s1.resize.last_storage + 1 < s1.resize.external_storage.length
        rw [hrl, resize_length, e_len, els]
        omega
      · rw [backPos, frontPos, h64]
        show (s1.resize.last_storage + 1) * 64 + 0 =
          s1.resize.first_storage * 64 + s1.resize.current_first + 1 +
            s1.resize.external_storage_size
        rw [hrl, hrf, resize_current_first, resize_size, e_len, els, efs, ecf,
          esz]
        omega
      · show s1.resize.pivot + 1 = s1.resize.external_storage.length / 2
        rw [resize_pivot, resize_length, e_len]
        omega
      · show s1.resize.external_storage.length % 2 = 0
        rw [resize_length, e_len]
        omega
      · show s1.resize.external_storage_size = (l ++ [v]).length
        rw [resize_size, esz, List.length_append, List.length_singleton, hsz]
      · intro i hi
        rw [List.length_append, List.length_singleton] at hi
        rw [frontPos, h64]
        show readGlobal s1.resize.external_storage
            (s1.resize.first_storage * 64 + s1.resize.current_first + 1 + i) =
          (l ++ [v])[i]?
        have hidx : s1.resize.first_storage * 64 + s1.resize.current_first
            + 1 + i =
            (s.first_storage * 64 + s.current_first + 1 + i) +
              s1.external_storage.length / 2 * initial_size := by
          rw [hrf, resize_current_first, h64, e_len, efs, ecf]
          omega
        rw [hidx, hread2 _ (by rw [h64, efs]; omega)
          (by rw [h64, els]; omega)]
        exact hreads1 i hi
    · rw [if_neg (by simpa [length_writeBlock] using hres)]
      refine ⟨⟨?_, ?_, ?_, ?_, ?_, ?_, ?_⟩, ?_, ?_⟩
      · exact inv.cf_lt
      · show (0 : Nat) < initial_size
        decide
      · simp only [length_writeBlock]
        exact hfs
      · simp only [length_writeBlock]
        omega
      · rw [backPos, frontPos, h64]
        show (s.last_storage + 1) * 64 + 0 =
          s.first_storage * 64 + s.current_first + 1 +
            (s.external_storage_size + 1)
        omega
      · simp only [length_writeBlock]
        exact hpe
      · simp only [length_writeBlock]
        exact hle
      · simpa using hsz
      · intro i hi
        rw [List.length_append, List.length_singleton] at hi
        rw [frontPos, h64]
        exact hreads1 i hi
  · rw [if_neg hwrap]
    rw [h64] at hwrap
    refine ⟨⟨?_, ?_, ?_, ?_, ?_, ?_, ?_⟩, ?_, ?_⟩
    · exact inv.cf_lt
    · show s.current_last + 1 < initial_size
      rw [h64]; omega
    · simp only [length_writeBlock]
      exact hfs
    · simp only [length_writeBlock]
      exact hls
    · rw [backPos, frontPos, h64]
      show s.last_storage * 64 + (s.current_last + 1) =
        s.first_storage * 64 + s.current_first + 1 +
          (s.external_storage_size + 1)
      omega
    · simp only [length_writeBlock]
      exact hpe
    · simp only [length_writeBlock]
      exact hle
    · simpa using hsz
    · intro i hi
      rw [List.length_append, List.length_singleton] at hi
      rw [frontPos, h64]
      exact hreads1 i hi

theorem represents_push_front {α : Type} {s : Deque α} {l : List α} (v : α)
    (h : represents s l) : represents (s.push_front v) (v :: l) := by
  obtain ⟨inv, hsz, hread⟩ := h
  have h64 : initial_size = 64 := rfl
  have hcf := inv.cf_lt
  have hcl := inv.cl_lt
  have hfs := inv.fs_lt
  have hls := inv.ls_lt
  have hpos := inv.pos_eq
  have hpe := inv.pivot_eq
  have hle := inv.len_even
  rw [backPos, frontPos, h64] at hpos
  rw [h64] at hcf hcl
  have hlen2 : 2 ≤ s.external_storage.length := by omega
  have hself : readGlobal
      (writeBlock s.external_storage s.first_storage s.current_first v)
      (s.first_storage * 64 + s.current_first) = some v := by
    have := readGlobal_writeBlock_self s.external_storage s.first_storage
      s.current_first v hfs (by rw [h64]; omega)
    rw [h64] at this
    exact this
  have hne : ∀ g, g ≠ s.first_storage * 64 + s.current_first →
      readGlobal
        (writeBlock s.external_storage s.first_storage s.current_first v) g =
      readGlobal s.external_storage g := by
    intro g hg
    exact readGlobal_writeBlock_ne s.external_storage s.first_storage
      s.current_first g v (by rw [h64]; omega)
  have hreads1 : ∀ i, i < l.length + 1 →
      readGlobal
        (writeBlock s.external_storage s.first_storage s.current_first v)
        (s.first_storage * 64 + s.current_first + i) = (v :: l)[i]? := by
    intro i hi
    match i with
    | 0 =>
      rw [List.getElem?_cons_zero]
      simpa using hself
    | j + 1 =>
      rw [List.getElem?_cons_succ]
      have hidx : s.first_storage * 64 + s.current_first + (j + 1) =
          s.first_storage * 64 + s.current_first + 1 + j := by omega
      rw [hidx,
        hne (s.first_storage * 64 + s.current_first + 1 + j) (by omega)]
      have := hread j (by omega)
      rw [frontPos, h64] at this
      exact this
  simp only [Deque.push_front, length_writeBlock]
  by_cases hcf0 : s.current_first = 0
  · rw [if_pos hcf0]
    by_cases hfs0 : s.first_storage = 0
    · rw [if_pos hfs0]
      set s1 : Deque α := { s with
        external_storage :=
          writeBlock s.external_storage s.first_storage s.current_first v
        external_storage_size := s.external_storage_size + 1 } with hs1
      have e_len : s1.external_storage.length = s.external_storage.length :=
        length_writeBlock _ _ _ _
      have efs : s1.first_storage = s.first_storage := rfl
      have els : s1.last_storage = s.last_storage := rfl
      have ecl : s1.current_last = s.current_last := rfl
      have esz : s1.external_storage_size = s.external_storage_size + 1 := rfl
      have hpe1 : s1.pivot + 1 = s1.external_storage.length / 2 := by
        rw [e_len]; exact hpe
      have he1 : s1.external_storage.length % 2 = 0 := by
        rw [e_len]; exact hle
      have hls1 : s1.last_storage < s1.external_storage.length := by
        rw [e_len, els]; exact hls
      have hrf := resize_first_storage s1 hpe1 he1
      have hrl := resize_last_storage s1 hpe1 he1
      have hread2 := resize_readGlobal s1 hpe1 he1 hls1
      refine ⟨⟨?_, ?_, ?_, ?_, ?_, ?_, ?_⟩, ?_, ?_⟩
      · show initial_size - 1 < initial_size
        decide
      · show s1.resize.current_last < initial_size
        rw [resize_current_last, ecl]
        exact inv.cl_lt
      · show s1.resize.first_storage - 1 < s1.resize.external_storage.length
        rw [hrf, resize_length, e_len, efs]
        omega
      · show s1.resize.last_storage < s1.resize.external_storage.length
        rw [hrl, resize_length, e_len, els]
        omega
      · rw [backPos, frontPos, h64]
        show s1.resize.last_storage * 64 + s1.resize.current_last =
          (s1.resize.first_storage - 1) * 64 + (initial_size - 1) + 1 +
            s1.resize.external_storage_size
        rw [hrl, hrf, resize_current_last, resize_size, e_len, els, efs, ecl,
          esz, h64]
        omega
      · show s1.resize.pivot + 1 = s1.resize.external_storage.length / 2
        rw [resize_pivot, resize_length, e_len]
        omega
      · show s1.resize.external_storage.length % 2 = 0
        rw [resize_length, e_len]
        omega
      · show s1.resize.external_storage_size = (v :: l).length
        rw [resize_size, esz, List.length_cons, hsz]
      · intro i hi
        rw [List.length_cons] at hi
        rw [frontPos, h64]
        show readGlobal s1.resize.external_storage
            ((s1.resize.first_storage - 1) * 64 + (initial_size - 1) + 1 + i)
            = (v :: l)[i]?
        have hidx : (s1.resize.first_storage - 1) * 64 + (initial_size - 1)
            + 1 + i =
            (s.first_storage * 64 + s.current_first + i) +
              s1.external_storage.length / 2 * initial_size := by
          rw [hrf, h64, e_len, efs]
          omega
        rw [hidx, hread2 _ (by rw [h64, efs]; omega)
          (by rw [h64, els]; omega)]
        exact hreads1 i hi
    · rw [if_neg hfs0]
      refine ⟨⟨?_, ?_, ?_, ?_, ?_, ?_, ?_⟩, ?_, ?_⟩
      · show initial_size - 1 < initial_size
        decide
      · exact inv.cl_lt
      · simp only [length_writeBlock]
        omega
      · simp only [length_writeBlock]
        exact hls
      · rw [backPos, frontPos, h64]
        show s.last_storage * 64 + s.current_last =
          (s.first_storage - 1) * 64 + (initial_size - 1) + 1 +
            (s.external_storage_size + 1)
        rw [h64]
        omega
      · simp only [length_writeBlock]
        exact hpe
      · simp only [length_writeBlock]
        exact hle
      · simpa using hsz
      · intro i hi
        rw [List.length_cons] at hi
        rw [frontPos, h64]
        show readGlobal
            (writeBlock s.external_storage s.first_storage s.current_first v)
            ((s.first_storage - 1) * 64 + (initial_size - 1) + 1 + i) =
          (v :: l)[i]?
        have hidx : (s.first_storage - 1) * 64 + (initial_size - 1) + 1 + i =
            s.first_storage * 64 + s.current_first + i := by
          rw [h64]
          omega
        rw [hidx]
        exact hreads1 i hi
  · rw [if_neg hcf0]
    refine ⟨⟨?_, ?_, ?_, ?_, ?_, ?_, ?_⟩, ?_, ?_⟩
    · show s.current_first - 1 < initial_size
      rw [h64]
      omega
    · exact inv.cl_lt
    · simp only [length_writeBlock]
      exact hfs
    · simp only [length_writeBlock]
      exact hls
    · rw [backPos, frontPos, h64]
      show s.last_storage * 64 + s.current_last =
        s.first_storage * 64 + (s.current_first - 1) + 1 +
          (s.external_storage_size + 1)
      omega
    · simp only [length_writeBlock]
      exact hpe
    · simp only [length_writeBlock]
      exact hle
    · simpa using hsz
    · intro i hi
      rw [List.length_cons] at hi
      rw [frontPos, h64]
      show readGlobal
          (writeBlock s.external_storage s.first_storage s.current_first v)
          (s.first_storage * 64 + (s.current_first - 1) + 1 + i) =
        (v :: l)[i]?
      have hidx : s.first_storage * 64 + (s.current_first - 1) + 1 + i =
          s.first_storage * 64 + s.current_first + i := by omega
      rw [hidx]
      exact hreads1 i hi

theorem represents_pop_back {α : Type} {s : Deque α} {l : List α}
    (h : represents s l) : represents s.pop_back l.dropLast := by
  obtain ⟨inv, hsz, hread⟩ := h
  have h64 : initial_size = 64 := rfl
  have hcf := inv.cf_lt
  have hcl := inv.cl_lt
  have hfs := inv.fs_lt
  have hls := inv.ls_lt
  have hpos := inv.pos_eq
  have hpe := inv.pivot_eq
  have hle := inv.len_even
  rw [backPos, frontPos, h64] at hpos
  rw [h64] at hcf hcl
  by_cases hsz0 : s.external_storage_size = 0
  · have hl : l = [] := List.length_eq_zero.mp (hsz0 ▸ hsz.symm)
    subst hl
    rw [Deque.pop_back, if_neg (not_not_intro hsz0)]
    exact ⟨inv, hsz, hread⟩
  · have hreads : ∀ i, i < l.length - 1 →
        readGlobal s.external_storage
          (s.first_storage * 64 + s.current_first + 1 + i) =
        l.dropLast[i]? := by
      intro i hi
      rw [List.dropLast_eq_take, List.getElem?_take, if_pos hi]
      have := hread i (by omega)
      rw [frontPos, h64] at this
      exact this
    simp only [Deque.pop_back]
    rw [if_pos hsz0]
    by_cases hcl0 : s.current_last = 0
    · rw [if_pos hcl0]
      refine ⟨⟨?_, ?_, ?_, ?_, ?_, ?_, ?_⟩, ?_, ?_⟩
      · exact inv.cf_lt
      · show initial_size - 1 < initial_size
        decide
      · exact hfs
      · show s.last_storage - 1 < s.external_storage.length
        omega
      · rw [backPos, frontPos, h64]
        show (s.last_storage - 1) * 64 + (initial_size - 1) =
          s.first_storage * 64 + s.current_first + 1 +
            (s.external_storage_size - 1)
        rw [h64]
        omega
      · exact hpe
      · exact hle
      · show s.external_storage_size - 1 = l.dropLast.length
        rw [List.length_dropLast, hsz]
      · intro i hi
        rw [List.length_dropLast] at hi
        rw [frontPos, h64]
        exact hreads i (by omega)
    · rw [if_neg hcl0]
      refine ⟨⟨?_, ?_, ?_, ?_, ?_, ?_, ?_⟩, ?_, ?_⟩
      · exact inv.cf_lt
      · show s.current_last - 1 < initial_size
        rw [h64]
        omega
      · exact hfs
      · exact hls
      · rw [backPos, frontPos, h64]
        show s.last_storage * 64 + (s.current_last - 1) =
          s.first_storage * 64 + s.current_first + 1 +
            (s.external_storage_size - 1)
        omega
      · exact hpe
      · exact hle
      · show s.external_storage_size - 1 = l.dropLast.length
        rw [List.length_dropLast, hsz]
      · intro i hi
        rw [List.length_dropLast] at hi
        rw [frontPos, h64]
        exact hreads i (by omega)

theorem represents_pop_front {α : Type} {s : Deque α} {l : List α}
    (h : represents s l) : represents s.pop_front l.tail := by
  obtain ⟨inv, hsz, hread⟩ := h
  have h64 : initial_size = 64 := rfl
  have hcf := inv.cf_lt
  have hcl := inv.cl_lt
  have hfs := inv.fs_lt
  have hls := inv.ls_lt
  have hpos := inv.pos_eq
  have hpe := inv.pivot_eq
  have hle := inv.len_even
  rw [backPos, frontPos, h64] at hpos
  rw [h64] at hcf hcl
  by_cases hsz0 : s.external_storage_size = 0
  · have hl : l = [] := List.length_eq_zero.mp (hsz0 ▸ hsz.symm)
    subst hl
    rw [Deque.pop_front, if_neg (not_not_intro hsz0)]
    exact ⟨inv, hsz, hread⟩
  · have hreads : ∀ i, i < l.length - 1 →
        readGlobal s.external_storage
          (s.first_storage * 64 + s.current_first + 1 + (i + 1)) =
        l.tail[i]? := by
      intro i hi
      have ht : l.tail = l.drop 1 := by
        cases l
        · rfl
        · rfl
      rw [ht, List.getElem?_drop]
      have := hread (1 + i) (by omega)
      rw [frontPos, h64] at this
      have hidx : s.first_storage * 64 + s.current_first + 1 + (i + 1) =
          s.first_storage * 64 + s.current_first + 1 + (1 + i) := by omega
      rw [hidx]
      exact this
    simp only [Deque.pop_front]
    rw [if_pos hsz0]
    by_cases hcf1 : s.current_first + 1 ≥ initial_size
    · rw [if_pos hcf1]
      rw [h64] at hcf1
      refine ⟨⟨?_, ?_, ?_, ?_, ?_, ?_, ?_⟩, ?_, ?_⟩
      · show (0 : Nat) < initial_size
        decide
      · exact inv.cl_lt
      · show s.first_storage + 1 < s.external_storage.length
        omega
      · exact hls
      · rw [backPos, frontPos, h64]
        show s.last_storage * 64 + s.current_last =
          (s.first_storage + 1) * 64 + 0 + 1 +
            (s.external_storage_size - 1)
        omega
      · exact hpe
      · exact hle
      · show s.external_storage_size - 1 = l.tail.length
        rw [List.length_tail, hsz]
      · intro i hi
        rw [List.length_tail] at hi
        rw [frontPos, h64]
        show readGlobal s.external_storage
            ((s.first_storage + 1) * 64 + 0 + 1 + i) = l.tail[i]?
        have hidx : (s.first_storage + 1) * 64 + 0 + 1 + i =
            s.first_storage * 64 + s.current_first + 1 + (i + 1) := by omega
        rw [hidx]
        exact hreads i (by omega)
    · rw [if_neg hcf1]
      rw [h64] at hcf1
      refine ⟨⟨?_, ?_, ?_, ?_, ?_, ?_, ?_⟩, ?_, ?_⟩
      · show s.current_first + 1 < initial_size
        rw [h64]
        omega
      · exact inv.cl_lt
      · exact hfs
      · exact hls
      · rw [backPos, frontPos, h64]
        show s.last_storage * 64 + s.current_last =
          s.first_storage * 64 + (s.current_first + 1) + 1 +
            (s.external_storage_size - 1)
        omega
      · exact hpe
      · exact hle
      · show s.external_storage_size - 1 = l.tail.length
        rw [List.length_tail, hsz]
      · intro i hi
        rw [List.length_tail] at hi
        rw [frontPos, h64]
        show readGlobal s.external_storage
            (s.first_storage * 64 + (s.current_first + 1) + 1 + i) =
          l.tail[i]?
        have hidx : s.first_storage * 64 + (s.current_first + 1) + 1 + i =
            s.first_storage * 64 + s.current_first + 1 + (i + 1) := by omega
        rw [hidx]
        exact hreads i (by omega)

/-!
## Every reachable state represents its abstract element sequence
-/

theorem represents_applyDOp {α : Type} {s : Deque α} {l : List α}
    (h : represents s l) (op : DOp α) :
    represents (applyDOp s op) (modelOp l op) := by
  cases op with
  | pushF v => exact represents_push_front v h
  | pushB v => exact represents_push_back v h
  | popF => exact represents_pop_front h
  | popB => exact represents_pop_back h

theorem represents_foldl {α : Type} (ops : List (DOp α)) :
    ∀ (s : Deque α) (l : List α), represents s l →
      represents (ops.foldl applyDOp s) (ops.foldl modelOp l) := by
  induction ops with
  | nil => exact fun s l h => h
  | cons op rest ih =>
    intro s l h
    exact ih _ _ (represents_applyDOp h op)

theorem represents_runOps {α : Type} (ops : List (DOp α)) :
    represents (runOps ops) (modelRun ops) :=
  represents_foldl ops _ _ (represents_init α)

theorem represents_pushList {α : Type} (l : List α) :
    ∀ (s : Deque α) (m : List α), represents s m →
      represents (pushList l s) (m ++ l) := by
  induction l with
  | nil =>
    intro s m h
    simpa using h
  | cons v t ih =>
    intro s m h
    have step := ih (s.push_back v) (m ++ [v]) (represents_push_back v h)
    show represents (pushList t (s.push_back v)) (m ++ v :: t)
    have harr : m ++ [v] ++ t = m ++ v :: t := by simp
    rw [harr] at step
    exact step

theorem back_eq_getLast {α : Type} {s : Deque α} {l : List α}
    (h : represents s l) (hne : l ≠ []) : s.back = l.getLast? := by
  have hsz : s.external_storage_size = l.length := h.2.1
  have hlen : l.length ≠ 0 := fun hc => hne (List.length_eq_zero.mp hc)
  rw [Deque.back, if_neg (by simp [Deque.empty, hsz, hlen])]
  rw [hsz, represents_opBracket h (l.length - 1) (by omega)]
  rw [List.getLast?_eq_getElem?]

theorem popsBack_represents {α : Type} (l : List α) :
    ∀ (s : Deque α), represents s l →
      popsBack l.length s = l.reverse.map some := by
  induction l using List.reverseRecOn with
  | nil => exact fun s _ => rfl
  | append_singleton t a ih =>
    intro s h
    rw [List.length_append, List.length_singleton]
    show s.back :: popsBack t.length s.pop_back =
      (t ++ [a]).reverse.map some
    have hb : s.back = some a := by
      rw [back_eq_getLast h (by simp)]
      simp
    have hd : represents s.pop_back t := by
      have step := represents_pop_back h
      rw [List.dropLast_concat] at step
      exact step
    rw [hb, ih _ hd]
    simp

/-!
## Iterator construction facts
-/

theorem mkIterator_index {α : Type} (cp cs : Int) (st : List (Block α))
    (p : Int) : (Deque_iterator.mkIterator cp cs st p).index = 0 := by
  rw [Deque_iterator.mkIterator]
  split
  · rfl
  · split
    · rfl
    · rfl

theorem begin_index {α : Type} (s : Deque α) : s.begin.index = 0 :=
  mkIterator_index _ _ _ _

theorem endIt_index {α : Type} (s : Deque α) : s.endIt.index = 0 :=
  mkIterator_index _ _ _ _

/-!
## The claims
-/

/-- C1: for every reachable deque state (a run of push/pop operations from
the default-constructed deque) and every logical index i in [0, size),
operator[] returns exactly the i-th element of the abstract sequence —
the value most recently written to logical position i — unaffected by
push/pop operations at the opposite end and by any number of resize
events; in particular stale values left behind by pop never leak through
operator[] for valid indices. -/
theorem opBracket_returns_last_write {α : Type} (ops : List (DOp α))
    (i : Nat) (hi : i < (modelRun ops).length) :
    (runOps ops).get_size = (modelRun ops).length ∧
      (runOps ops).opBracket i = (modelRun ops)[i]? :=
  ⟨(represents_runOps ops).2.1,
    represents_opBracket (represents_runOps ops) i hi⟩

/-- Witness for C1 at a concrete run: push_back 1, push_front 2, pop_back
leaves the single element 2 at index 0. -/
theorem opBracket_returns_last_write_witness :
    0 < (modelRun [DOp.pushB (1 : Nat), DOp.pushF 2, DOp.popB]).length ∧
      ((runOps [DOp.pushB (1 : Nat), DOp.pushF 2, DOp.popB]).get_size =
        (modelRun [DOp.pushB (1 : Nat), DOp.pushF 2, DOp.popB]).length ∧
      (runOps [DOp.pushB (1 : Nat), DOp.pushF 2, DOp.popB]).opBracket 0 =
        (modelRun [DOp.pushB (1 : Nat), DOp.pushF 2, DOp.popB])[0]?) :=
  ⟨by decide, opBracket_returns_last_write _ 0 (by decide)⟩

set_option maxRecDepth 8000 in
/-- C3: starting from an empty deque, after push_back of 1..100 in order
followed by 50 pop_front calls, front() is 51, back() is 100 and size()
is 50. -/
theorem push100_popFront50_scenario :
    (runOps ops100).front = some 51 ∧ (runOps ops100).back = some 100 ∧
      (runOps ops100).get_size = 50 := by
  have h := represents_runOps ops100
  have hlen : (modelRun ops100).length = 50 := by decide
  have hsz : (runOps ops100).external_storage_size = 50 := by
    rw [h.2.1, hlen]
  refine ⟨?_, ?_, hsz⟩
  · rw [Deque.front, if_neg (by simp [Deque.empty, hsz])]
    rw [represents_opBracket h 0 (by omega)]
    decide
  · rw [Deque.back, if_neg (by simp [Deque.empty, hsz]), hsz]
    rw [represents_opBracket h 49 (by omega)]
    decide

/-- C4: for every sequence of push_back values followed by equal-count
pop_back (reading back() before each pop), the popped values come out in
the exact reverse of the push order. -/
theorem pushBack_popBack_reverse {α : Type} (l : List α) :
    popsBack l.length (pushList l (Deque.init α)) = l.reverse.map some := by
  have h := represents_pushList l (Deque.init α) [] (represents_init α)
  rw [List.nil_append] at h
  exact popsBack_represents l _ h

/-- C9: pop_back and pop_front on an empty container are silent no-ops:
they do not fail, leave the state (hence the size, which as a Nat is never
negative) entirely unchanged. -/
theorem pop_on_empty_noop {α : Type} (s : Deque α)
    (h : s.external_storage_size = 0) :
    s.pop_back = s ∧ s.pop_front = s ∧
      s.pop_back.external_storage_size = 0 ∧
      s.pop_front.external_storage_size = 0 := by
  have h1 : s.pop_back = s := by
    rw [Deque.pop_back, if_neg (not_not_intro h)]
  have h2 : s.pop_front = s := by
    rw [Deque.pop_front, if_neg (not_not_intro h)]
  exact ⟨h1, h2, by rw [h1, h], by rw [h2, h]⟩

/-- Witness for C9 at the default-constructed deque. -/
theorem pop_on_empty_noop_witness :
    (Deque.init Nat).external_storage_size = 0 ∧
      ((Deque.init Nat).pop_back = Deque.init Nat ∧
      (Deque.init Nat).pop_front = Deque.init Nat) :=
  ⟨rfl, (pop_on_empty_noop (Deque.init Nat) rfl).1,
    (pop_on_empty_noop (Deque.init Nat) rfl).2.1⟩

/-- C10: the iterator constructor never stores its (locally adjusted)
current_position argument into the index field and never uses its
current_storage argument, so begin() and end() both carry within-block
index 0; consequently, for any non-empty deque whose front and back
positions lie inside their blocks without boundary wrap, begin() != end()
returns false. -/
theorem begin_endIt_index_zero {α : Type} (cp cs cs2 : Int)
    (st : List (Block α)) (p : Int) (s : Deque α)
    (h1 : s.current_first + 1 < initial_size)
    (h2 : s.current_last < initial_size)
    (h3 : 0 < s.external_storage_size) :
    (Deque_iterator.mkIterator cp cs st p).index = 0 ∧
      Deque_iterator.mkIterator cp cs st p =
        Deque_iterator.mkIterator cp cs2 st p ∧
      s.begin.index = 0 ∧ s.endIt.index = 0 ∧
      Deque_iterator.iterNeq s.begin s.endIt = false := by
  refine ⟨mkIterator_index cp cs st p, rfl, begin_index s, endIt_index s, ?_⟩
  rw [Deque_iterator.iterNeq, begin_index s, endIt_index s]
  simp

/-- Witness for C10: the deque holding the single element 5. -/
theorem begin_endIt_index_zero_witness :
    (((Deque.init Nat).push_back 5).current_first + 1 < initial_size ∧
      ((Deque.init Nat).push_back 5).current_last < initial_size ∧
      0 < ((Deque.init Nat).push_back 5).external_storage_size) ∧
      ((Deque_iterator.mkIterator 5 0 ([] : List (Block Nat)) 0).index = 0 ∧
        Deque_iterator.mkIterator 5 0 ([] : List (Block Nat)) 0 =
          Deque_iterator.mkIterator 5 1 ([] : List (Block Nat)) 0 ∧
        ((Deque.init Nat).push_back 5).begin.index = 0 ∧
        ((Deque.init Nat).push_back 5).endIt.index = 0 ∧
        Deque_iterator.iterNeq ((Deque.init Nat).push_back 5).begin
          ((Deque.init Nat).push_back 5).endIt = false) :=
  ⟨⟨by decide, by decide, by decide⟩,
    begin_endIt_index_zero 5 0 1 [] 0 ((Deque.init Nat).push_back 5)
      (by decide) (by decide) (by decide)⟩

/-- C2 (code bug): the buffer constructor Deque(source, size) never
initializes external_storage (it does not delegate to the default
constructor), so its push_back calls write into a block table of length 0;
constructing from the one-element buffer [7] yields a container that
claims size 1 but holds no block, and container[0] yields nothing rather
than 7. -/
theorem fromBuffer_loses_elements :
    (Deque.fromBuffer [(7 : Nat)]).external_storage_size = 1 ∧
      (Deque.fromBuffer [(7 : Nat)]).external_storage.length = 0 ∧
      (Deque.fromBuffer [(7 : Nat)]).opBracket 0 = none := by
  decide

/-- C5 (code bug): get_value always returns storage[0][17], a hardcoded
slot; on an iterator whose (pivot + offset, index) resolves to block 1,
slot 0 (holding 42) it still returns the value 7 stored at block 0,
slot 17. -/
theorem get_value_hardcoded_slot :
    Deque_iterator.get_value
        (⟨1, 0, [setSlot emptyBlock 17 7, setSlot emptyBlock 0 42], 0⟩ :
          Deque_iterator Nat) = some 7 ∧
      Deque_iterator.derefSpec
        (⟨1, 0, [setSlot emptyBlock 17 7, setSlot emptyBlock 0 42], 0⟩ :
          Deque_iterator Nat) = some 42 ∧
      (some 7 : Option Nat) ≠ some 42 := by
  decide

/-- C6 (code bug): operator!= uses a logical AND of the component
comparisons, so two iterators that differ only in the index component
compare as not-unequal. -/
theorem iterNeq_and_not_or :
    Deque_iterator.iterNeq (⟨0, 0, [], 0⟩ : Deque_iterator Nat)
        ⟨0, 5, [], 0⟩ = false ∧
      (⟨0, 0, [], 0⟩ : Deque_iterator Nat).index ≠
        (⟨0, 5, ([] : List (Block Nat)), 0⟩ : Deque_iterator Nat).index := by
  decide

/-- C7 (code bug): operator+= adds index % initial_size to index instead
of assigning it, so advancing an iterator at index 0 by 64 leaves
index = 64 (outside [0, initial_size)) and moves the linear position
offset * C + index by 128 instead of 64. -/
theorem addAssign_index_not_folded :
    ((⟨0, 0, [], 0⟩ : Deque_iterator Nat).addAssign 64).offset = 1 ∧
      ((⟨0, 0, [], 0⟩ : Deque_iterator Nat).addAssign 64).index = 64 ∧
      ¬ ((⟨0, 0, [], 0⟩ : Deque_iterator Nat).addAssign 64).index <
          (initial_size : Int) ∧
      ((⟨0, 0, [], 0⟩ : Deque_iterator Nat).addAssign 64).offset *
          (initial_size : Int) +
        ((⟨0, 0, [], 0⟩ : Deque_iterator Nat).addAssign 64).index ≠
        (0 : Int) * (initial_size : Int) + 0 + 64 := by
  decide

/-- C8 (code bug): at() asserts index <= size rather than index < size,
so on a one-element deque the checked access at(1) passes the bounds
check (1 is not less than the size) and reads the unwritten slot one past
the last element instead of failing. -/
theorem atChecked_passes_at_size :
    ((Deque.init Nat).push_back 7).external_storage_size = 1 ∧
      ((Deque.init Nat).push_back 7).atChecked 1 = some none := by
  decide
